import Mathlib

/-!
Shallow embedding of the SQS-driven S3 object ingestor from
`src/sources/aws_s3.rs`, together with proofs checking the natural-language
specification of the repository against it.

Modelling conventions:
* Rust `String`/`&str` become Lean `String`; byte chunks (`Bytes`) are
  modelled as `String` since no claim inspects individual bytes.
* Machine integers do not appear in any claim-relevant path.
* External AWS transports (SQS receive/delete, S3 GetObject), JSON parsing
  of whole notification bodies (serde_json) and the downstream sink are
  external collaborators; their outcomes are supplied by an `Env` record.
  The `eventName` field codec, the compression detector, the line splitter
  and the enrichment logic live in this repository and are embedded
  directly from the source.
* Async control flow is sequentialised: the per-tick message loop of the
  ingestor becomes a recursive function producing an explicit trace of
  observable effects (object fetches, records forwarded to the sink,
  delete calls, warnings) plus a marker for the `.unwrap()` panic on
  `delete_message` failure.
-/

namespace AwsS3

abbrev Bytes := String

/-! ## Compression (`enum Compression`, `determine_compression` and friends) -/

/-- Embeds `enum Compression { Auto, None, Gzip, Zstd }` from the source. -/
inductive Compression where
  | auto
  | none
  | gzip
  | zstd
deriving DecidableEq

/-- Embeds `content_encoding_to_compression` from the source. -/
def content_encoding_to_compression (content_encoding : String) : Option Compression :=
  if content_encoding = "gzip" then some Compression.gzip
  else if content_encoding = "zstd" then some Compression.zstd
  else Option.none

/-- Embeds `content_type_to_compression` from the source. -/
def content_type_to_compression (content_type : String) : Option Compression :=
  if content_type = "application/gzip" ∨ content_type = "application/x-gzip" then
    some Compression.gzip
  else if content_type = "application/zstd" then some Compression.zstd
  else Option.none

/-- Split a character list on every occurrence of `sep`. -/
def splitOnChar (sep : Char) : List Char → List (List Char)
  | [] => [[]]
  | c :: rest =>
    let r := splitOnChar sep rest
    if c = sep then [] :: r
    else
      match r with
      | [] => [[c]]
      | h :: t => (c :: h) :: t

/-- Model of `std::path::Path::file_name` for the object key: the component
after the last `/`, skipping empty and `"."` components, and `none` when the
path ends (after skipping) in `".."` or is empty. -/
def path_file_name (key : String) : Option (List Char) :=
  match ((splitOnChar '/' key.toList).filter
      (fun c => c != ([] : List Char) && c != ['.'])).getLast? with
  | Option.none => Option.none
  | some c => if c = ['.', '.'] then Option.none else some c

/-- Model of `std::path::Path::extension` applied to a file name: the portion
after the final `.`; `none` when there is no `.`, or when the only `.` is the
leading character (hidden files such as `".gz"` have no extension). -/
def extension_of_name (name : List Char) : Option String :=
  match splitOnChar '.' name with
  | [] => Option.none
  | [_] => Option.none
  | first :: rest =>
    if first = ([] : List Char) ∧ rest.length = 1 then Option.none
    else rest.getLast?.map (fun e => String.mk e)

/-- Embeds `Path::new(key).extension().and_then(OsStr::to_str)` from
`object_key_to_compression`. -/
def path_extension (key : String) : Option String :=
  (path_file_name key).bind extension_of_name

/-- Embeds `object_key_to_compression` from the source. -/
def object_key_to_compression (key : String) : Option Compression :=
  (path_extension key).bind (fun ext =>
    if ext = "gz" then some Compression.gzip
    else if ext = "zst" then some Compression.zstd
    else Option.none)

/-- Embeds `determine_compression` from the source: content-encoding first, then
content-type, then the file extension of the key. -/
def determine_compression (key : String)
    (content_encoding content_type : Option String) : Option Compression :=
  ((content_encoding.bind content_encoding_to_compression).orElse
    (fun _ => (content_type.bind content_type_to_compression).orElse
      (fun _ => object_key_to_compression key)))

/-- The compression-resolution step of `s3_object_decoder`: `Auto` is replaced
by the detector answer, defaulting to `None`; concrete kinds pass through. -/
def resolve_compression (compression : Compression) (key : String)
    (content_encoding content_type : Option String) : Compression :=
  match compression with
  | Compression.auto =>
    (determine_compression key content_encoding content_type).getD Compression.none
  | c => c

/-! ## Event name codec (`S3EventName`) -/

/-- Embeds `struct S3EventName { kind, name }` from the source. -/
structure S3EventName where
  kind : String
  name : String
deriving DecidableEq

/-- Split a character list at the first `:`; `none` when there is no `:`.
Together with `splitn2_colon` this embeds the Rust call `splitn` at 2. -/
def splitFirstColon : List Char → Option (List Char × List Char)
  | [] => Option.none
  | c :: rest =>
    if c = ':' then some ([], rest)
    else
      match splitFirstColon rest with
      | Option.none => Option.none
      | some (pre, post) => some (c :: pre, post)

/-- Rust `s.splitn(2, ":")` collected to a list: one element when `s` has no
`:`, otherwise the part before the first `:` and the rest. -/
def splitn2_colon (s : String) : List String :=
  match splitFirstColon s.toList with
  | Option.none => [s]
  | some (pre, post) => [String.mk pre, String.mk post]

/-- Embeds `impl Deserialize for S3EventName` from the source: the first `splitn`
part becomes `kind`, the second becomes `name`; only a missing part errors
(`String::parse::<String>` is infallible). -/
def deserialize_event_name (s : String) : Except String S3EventName :=
  let parts := splitn2_colon s
  match parts.get? 0 with
  | Option.none => Except.error "Missing event type"
  | some kind =>
    match parts.get? 1 with
    | Option.none => Except.error "Missing event name"
    | some name => Except.ok { kind := kind, name := name }

/-- Embeds `impl Serialize for S3EventName` from the source:
`format!("{}:{}", self.name, self.kind)` — note the source writes `name`
before `kind`. -/
def serialize_event_name (e : S3EventName) : String :=
  e.name ++ ":" ++ e.kind

/-! ## Notification data model -/

/-- Embeds `struct S3Bucket { name }` from the source. -/
structure S3Bucket where
  name : String
deriving DecidableEq

/-- Embeds `struct S3Object { key }` from the source. -/
structure S3Object where
  key : String
deriving DecidableEq

/-- Embeds `struct S3Message { bucket, object }` from the source. -/
structure S3Message where
  bucket : S3Bucket
  object : S3Object
deriving DecidableEq

/-- Embeds `struct S3EventRecord` from the source. -/
structure S3EventRecord where
  event_version : String
  event_source : String
  aws_region : String
  event_name : S3EventName
  s3 : S3Message
deriving DecidableEq

/-- Embeds `struct S3Event { records }` from the source. -/
structure S3Event where
  records : List S3EventRecord
deriving DecidableEq

/-- Embeds `rusoto_sqs::Message`, restricted to the fields the ingestor reads. -/
structure Message where
  message_id : Option String
  receipt_handle : Option String
  body : Option String
deriving DecidableEq

/-- Embeds `enum ProcessingError` from the source (error payloads of external
transports reduced to the fields the source formats). -/
inductive ProcessingError where
  | invalidSqsMessage (message_id : String)
  | getObject (bucket key : String)
  | readObject (error bucket key : String)
  | wrongRegion (region bucket key : String)
deriving DecidableEq

/-! ## Line splitter (the `FramedRead`/`take_while`/`map(unwrap)` stream)

The successive outcomes of the framed reader are modelled as a list of
`Except String Bytes`: `ok chunk` for a decoded line, `error e` for an I/O
error whose display string is `e`. -/

/-- The `take_while` predicate of the source: keep items while they are
`Ok`. -/
def isOkChunk : Except String Bytes → Bool
  | Except.ok _ => true
  | Except.error _ => false

/-- The stream after `take_while`: the longest all-`Ok` front of the framed
reader outcomes. -/
def takeWhileOk (results : List (Except String Bytes)) : List (Except String Bytes) :=
  results.takeWhile isOkChunk

/-- The `r.unwrap()` in the `map` step: `none` models the panic branch. -/
def unwrapOk : Except String Bytes → Option Bytes
  | Except.ok b => some b
  | Except.error _ => Option.none

/-- Apply `unwrapOk` across a chunk list, `none` if any `unwrap` would
panic. -/
def mapUnwrap : List (Except String Bytes) → Option (List Bytes)
  | [] => some []
  | r :: rest =>
    match unwrapOk r with
    | Option.none => Option.none
    | some b => (mapUnwrap rest).map (fun bs => b :: bs)

/-- The mapped stream, with `none` if any `unwrap` would panic. -/
def readLinesChecked (results : List (Except String Bytes)) : Option (List Bytes) :=
  mapUnwrap (takeWhileOk results)

/-- The chunk sequence the splitter actually yields. -/
def readLines (results : List (Except String Bytes)) : List Bytes :=
  (readLinesChecked results).getD []

/-- The `read_error` side channel: the display string of the first `Err`
outcome, recorded by the `take_while` closure. -/
def firstError : List (Except String Bytes) → Option String
  | [] => Option.none
  | Except.ok _ :: rest => firstError rest
  | Except.error e :: _ => some e

/-! ## Record enrichment

`LogEvent` models the `Event`/`LogEvent` field map as an association list
with unique keys; `insertField` is map insertion (a later insert of the same
key overwrites the earlier entry). `Event::from(line)` also stamps a
wall-clock `timestamp` field, which is omitted: no claim concerns it. -/

abbrev LogEvent := List (String × String)

/-- Drop every entry with key `k`. -/
def removeKey (k : String) : LogEvent → LogEvent
  | [] => []
  | p :: t => if p.1 = k then removeKey k t else p :: removeKey k t

/-- Embeds `log.insert(key, value)`: remove any existing entry for `key`, then add
the new pair. -/
def insertField (log : LogEvent) (k v : String) : LogEvent :=
  removeKey k log ++ [(k, v)]

/-- Look a field up in the map. -/
def lookupField : LogEvent → String → Option String
  | [], _ => Option.none
  | p :: t, k => if p.1 = k then some p.2 else lookupField t k

/-- How many entries of the map carry key `k`. -/
def countKey : LogEvent → String → Nat
  | [], _ => 0
  | p :: t, k => (if p.1 = k then 1 else 0) + countKey t k

/-- The enrichment closure of `handle_s3_event_record`: build an event from
the line, insert `bucket`, `object` and `region`, then every metadata
pair. -/
def enrich (r : S3EventRecord) (metadata : Option (List (String × String)))
    (line : Bytes) : LogEvent :=
  let log : LogEvent := [("message", line)]
  let log := insertField log "bucket" r.s3.bucket.name
  let log := insertField log "object" r.s3.object.key
  let log := insertField log "region" r.aws_region
  match metadata with
  | some md => md.foldl (fun l p => insertField l p.1 p.2) log
  | Option.none => log

/-- The fold inserting all metadata pairs (the `for (key, value) in metadata`
loop). -/
def insertAll (md : List (String × String)) (log : LogEvent) : LogEvent :=
  md.foldl (fun l p => insertField l p.1 p.2) log

/-! ## The ingestor and its environment -/

/-- The response to a successful `GetObject`, restricted to the fields the
source reads. `body = none` models a response with no body; otherwise the
body stands for the framed reader outcomes over the decoded stream. -/
structure ObjectData where
  metadata : Option (List (String × String))
  content_encoding : Option String
  content_type : Option String
  body : Option (List (Except String Bytes))

/-- Outcomes of the external collaborators (AWS transports, serde_json body
parsing, the downstream sink) for one tick. -/
structure Env where
  parseBody : String → Except String S3Event
  getObject : String → String → Except String ObjectData
  sinkOk : String → String → Bool
  deleteResult : String → Bool

/-- Observable effects of one tick of the ingestor loop. -/
inductive Effect where
  | fetch (bucket key : String)
  | forward (ev : LogEvent)
  | sinkError
  | warnNoHandle (message_id : Option String)
  | deleteAttempt (receipt_handle : String)
deriving DecidableEq

/-- Embeds `struct SqsIngestor`, restricted to the fields the per-tick logic reads.
`region` is the `Region::name()` string; `aggregate` abstracts the optional
`LineAgg` wrapper (its implementation lives outside `src/`); `compression`
is carried for fidelity though decoding is abstracted into `Env`. -/
structure SqsIngestor where
  region : String
  compression : Compression
  aggregate : Option (List Bytes → List Bytes)
  delete_message : Bool

/-- The trace of the fetch-decode-forward phase for one record: the
`GetObject` call, the records sent to the sink in order, and a marker when
the sink reported an error (which the source logs and discards). -/
def recordEffects (b k : String) (evs : List LogEvent) (sinkRes : Bool) : List Effect :=
  Effect.fetch b k :: evs.map Effect.forward ++
    (if sinkRes then [] else [Effect.sinkError])

/-- Embeds `SqsIngestor::handle_s3_event_record`, returning the `Result` together
with the effect trace. `out.send_all` is modelled as consuming the whole
record stream and reporting success or failure. -/
def handle_s3_event_record (ing : SqsIngestor) (env : Env) (r : S3EventRecord) :
    Except ProcessingError Unit × List Effect :=
  if r.event_name.kind ≠ "ObjectCreated" then (Except.ok (), [])
  else if ing.region ≠ r.aws_region then
    (Except.error (ProcessingError.wrongRegion r.aws_region r.s3.bucket.name r.s3.object.key),
     [])
  else
    match env.getObject r.s3.bucket.name r.s3.object.key with
    | Except.error _ =>
      (Except.error (ProcessingError.getObject r.s3.bucket.name r.s3.object.key),
       [Effect.fetch r.s3.bucket.name r.s3.object.key])
    | Except.ok obj =>
      match obj.body with
      | Option.none => (Except.ok (), [Effect.fetch r.s3.bucket.name r.s3.object.key])
      | some results =>
        let lines :=
          match ing.aggregate with
          | some f => f (readLines results)
          | Option.none => readLines results
        let events := lines.map (enrich r obj.metadata)
        let effects := recordEffects r.s3.bucket.name r.s3.object.key events
          (env.sinkOk r.s3.bucket.name r.s3.object.key)
        match firstError results with
        | some e =>
          (Except.error (ProcessingError.readObject e r.s3.bucket.name r.s3.object.key),
           effects)
        | Option.none => (Except.ok (), effects)

/-- Embeds `SqsIngestor::handle_s3_event`: records in order, stopping at the first
error (`?` in the for loop of the source). -/
def handle_s3_event (ing : SqsIngestor) (env : Env) :
    List S3EventRecord → Except ProcessingError Unit × List Effect
  | [] => (Except.ok (), [])
  | r :: rest =>
    match handle_s3_event_record ing env r with
    | (Except.ok _, effs) =>
      let t := handle_s3_event ing env rest
      (t.1, effs ++ t.2)
    | (Except.error e, effs) => (Except.error e, effs)

/-- Embeds `SqsIngestor::handle_sqs_message`: parse the body (empty string when
missing) and handle the notification. -/
def handle_sqs_message (ing : SqsIngestor) (env : Env) (msg : Message) :
    Except ProcessingError Unit × List Effect :=
  match env.parseBody (msg.body.getD "") with
  | Except.error _ =>
    (Except.error (ProcessingError.invalidSqsMessage (msg.message_id.getD "<empty>")), [])
  | Except.ok ev => handle_s3_event ing env ev.records

/-- Result of one tick of `SqsIngestor::run` over a received batch:
`panicked` records that the `.unwrap()` on a failed `delete_message`
panicked, terminating the task with the trace accumulated so far. -/
inductive TickResult where
  | completed (effects : List Effect)
  | panicked (effects : List Effect)
deriving DecidableEq

/-- Prepend effects to a tick outcome. -/
def TickResult.prepend (es : List Effect) : TickResult → TickResult
  | TickResult.completed effs => TickResult.completed (es ++ effs)
  | TickResult.panicked effs => TickResult.panicked (es ++ effs)

/-- The trace of a tick outcome. -/
def TickResult.effects : TickResult → List Effect
  | TickResult.completed effs => effs
  | TickResult.panicked effs => effs

/-- The message loop body of `SqsIngestor::run` for one received batch:
require a receipt handle (else warn and continue); handle the message; on
success with `delete_message` set, call delete and `.unwrap()` its result
(panicking on failure); on handling error, continue. -/
def process_messages (ing : SqsIngestor) (env : Env) : List Message → TickResult
  | [] => TickResult.completed []
  | msg :: rest =>
    match msg.receipt_handle with
    | Option.none =>
      TickResult.prepend [Effect.warnNoHandle msg.message_id]
        (process_messages ing env rest)
    | some handle =>
      match handle_sqs_message ing env msg with
      | (Except.ok _, effs) =>
        if ing.delete_message then
          if env.deleteResult handle then
            TickResult.prepend (effs ++ [Effect.deleteAttempt handle])
              (process_messages ing env rest)
          else TickResult.panicked (effs ++ [Effect.deleteAttempt handle])
        else TickResult.prepend effs (process_messages ing env rest)
      | (Except.error _, effs) =>
        TickResult.prepend effs (process_messages ing env rest)

/-- The receipt handle of a delete effect, `none` for the other effects. -/
def deleteHandleOf : Effect → Option String
  | Effect.deleteAttempt h => some h
  | _ => Option.none

/-- The delete calls issued during a tick, by receipt handle. -/
def deletesOf (t : TickResult) : List String :=
  t.effects.filterMap deleteHandleOf

/-- Spec-level characterisation of a record whose handling succeeds: the
record is skipped (not `ObjectCreated`), or its region matches, `GetObject`
succeeds, and the body (when present) produces no read error. -/
def RecordOk (ing : SqsIngestor) (env : Env) (r : S3EventRecord) : Prop :=
  r.event_name.kind ≠ "ObjectCreated" ∨
    (ing.region = r.aws_region ∧
     ∃ obj, env.getObject r.s3.bucket.name r.s3.object.key = Except.ok obj ∧
       (obj.body = Option.none ∨
        ∃ results, obj.body = some results ∧ firstError results = Option.none))

/-! ## Concrete fixtures for witnesses and counterexamples -/

/-- An `ObjectCreated:Put` record in `us-east-1` for bucket `b`, key `k`. -/
def exRec : S3EventRecord :=
  { event_version := "2.0", event_source := "aws:s3", aws_region := "us-east-1",
    event_name := { kind := "ObjectCreated", name := "Put" },
    s3 := { bucket := { name := "b" }, object := { key := "k" } } }

/-- An `ObjectRemoved:Delete` record (skipped by the ingestor). -/
def exRecRemoved : S3EventRecord :=
  { exRec with event_name := { kind := "ObjectRemoved", name := "Delete" } }

/-- An `ObjectCreated` record for a bucket in another region. -/
def exRecWrongRegion : S3EventRecord :=
  { exRec with aws_region := "eu-west-1" }

/-- A message with a receipt handle. -/
def exMsg : Message :=
  { message_id := some "m1", receipt_handle := some "rh", body := some "notification" }

/-- Ingestor fixture: region `us-east-1`, auto compression, no aggregation,
`delete_message = true`. -/
def exIng : SqsIngestor :=
  { region := "us-east-1", compression := Compression.auto,
    aggregate := Option.none, delete_message := true }

/-- Environment where the sink fails but the object reads cleanly. -/
def envSinkFail : Env :=
  { parseBody := fun _ => Except.ok { records := [exRec] },
    getObject := fun _ _ => Except.ok
      { metadata := Option.none, content_encoding := Option.none,
        content_type := Option.none, body := some [Except.ok "line1"] },
    sinkOk := fun _ _ => false,
    deleteResult := fun _ => true }

/-- Environment where handling succeeds trivially but `DeleteMessage`
fails. -/
def envDeleteFail : Env :=
  { parseBody := fun _ => Except.ok { records := [] },
    getObject := fun _ _ => Except.error "unused",
    sinkOk := fun _ _ => true,
    deleteResult := fun _ => false }

/-- Environment with a read error after one decoded chunk. -/
def envReadErr : Env :=
  { parseBody := fun _ => Except.ok { records := [exRec] },
    getObject := fun _ _ => Except.ok
      { metadata := Option.none, content_encoding := Option.none,
        content_type := Option.none,
        body := some [Except.ok "l1", Except.error "io"] },
    sinkOk := fun _ _ => true,
    deleteResult := fun _ => true }

/-- Environment whose notification contains only a skipped record. -/
def envSkip : Env :=
  { parseBody := fun _ => Except.ok { records := [exRecRemoved] },
    getObject := fun _ _ => Except.error "unused",
    sinkOk := fun _ _ => true,
    deleteResult := fun _ => true }

/-- Environment whose notification contains a wrong-region record. -/
def envWrongRegion : Env :=
  { parseBody := fun _ => Except.ok { records := [exRecWrongRegion] },
    getObject := fun _ _ => Except.error "unused",
    sinkOk := fun _ _ => true,
    deleteResult := fun _ => true }

end AwsS3

deriving instance DecidableEq for Except

/-! ## Lemmas about the line splitter -/

namespace AwsS3

theorem takeWhileOk_ok_cons (b : Bytes) (rest : List (Except String Bytes)) :
    takeWhileOk (Except.ok b :: rest) = Except.ok b :: takeWhileOk rest := by
  simp [takeWhileOk, List.takeWhile_cons, isOkChunk]

theorem takeWhileOk_error_cons (e : String) (rest : List (Except String Bytes)) :
    takeWhileOk (Except.error e :: rest) = [] := by
  simp [takeWhileOk, List.takeWhile_cons, isOkChunk]

theorem mem_takeWhileOk_ok (rs : List (Except String Bytes)) :
    ∀ r ∈ takeWhileOk rs, ∃ b, r = Except.ok b := by
  induction rs with
  | nil => intro r h; simp [takeWhileOk] at h
  | cons x rest ih =>
    intro r h
    cases x with
    | ok b =>
      rw [takeWhileOk_ok_cons] at h
      cases h with
      | head => exact ⟨b, rfl⟩
      | tail _ h => exact ih r h
    | error e => rw [takeWhileOk_error_cons] at h; cases h

theorem mapUnwrap_map_ok (l : List Bytes) :
    mapUnwrap (l.map Except.ok) = some l := by
  induction l with
  | nil => rfl
  | cons b t ih => simp [mapUnwrap, unwrapOk, ih]

theorem readLinesChecked_eq_some (rs : List (Except String Bytes)) :
    readLinesChecked rs = some (readLines rs) := by
  have h : ∀ l, ∃ ls, mapUnwrap (takeWhileOk l) = some ls := by
    intro l
    induction l with
    | nil => exact ⟨[], rfl⟩
    | cons x rest ih =>
      cases x with
      | ok b =>
        obtain ⟨ls, hls⟩ := ih
        refine ⟨b :: ls, ?_⟩
        rw [takeWhileOk_ok_cons]
        simp [mapUnwrap, unwrapOk, hls]
      | error e =>
        refine ⟨[], ?_⟩
        rw [takeWhileOk_error_cons]
        rfl
  obtain ⟨ls, hls⟩ := h rs
  show mapUnwrap (takeWhileOk rs) = some (readLines rs)
  rw [hls]
  show some ls = some ((readLinesChecked rs).getD [])
  show some ls = some ((mapUnwrap (takeWhileOk rs)).getD [])
  rw [hls]
  rfl

theorem takeWhileOk_ok_front (pre : List Bytes) (rest : List (Except String Bytes)) :
    takeWhileOk (pre.map Except.ok ++ rest) = pre.map Except.ok ++ takeWhileOk rest := by
  induction pre with
  | nil => rfl
  | cons b t ih => simp only [List.map_cons, List.cons_append, takeWhileOk_ok_cons, ih]

theorem readLines_ok_front (pre : List Bytes) :
    readLines (pre.map Except.ok) = pre := by
  have h0 : takeWhileOk ([] : List (Except String Bytes)) = [] := rfl
  have h1 : takeWhileOk (pre.map Except.ok) = pre.map Except.ok := by
    simpa [h0] using takeWhileOk_ok_front pre []
  show (mapUnwrap (takeWhileOk (pre.map Except.ok))).getD [] = pre
  rw [h1, mapUnwrap_map_ok]
  rfl

theorem readLines_error (pre : List Bytes) (e : String) (rest : List (Except String Bytes)) :
    readLines (pre.map Except.ok ++ Except.error e :: rest) = pre := by
  have h1 : takeWhileOk (pre.map Except.ok ++ Except.error e :: rest) = pre.map Except.ok := by
    rw [takeWhileOk_ok_front, takeWhileOk_error_cons, List.append_nil]
  show (mapUnwrap (takeWhileOk (pre.map Except.ok ++ Except.error e :: rest))).getD [] = pre
  rw [h1, mapUnwrap_map_ok]
  rfl

theorem firstError_ok_front (pre : List Bytes) (rest : List (Except String Bytes)) :
    firstError (pre.map Except.ok ++ rest) = firstError rest := by
  induction pre with
  | nil => rfl
  | cons b t ih => simpa [firstError] using ih

theorem firstError_error (pre : List Bytes) (e : String) (rest : List (Except String Bytes)) :
    firstError (pre.map Except.ok ++ Except.error e :: rest) = some e := by
  rw [firstError_ok_front]; rfl

theorem firstError_eq_none_iff (rs : List (Except String Bytes)) :
    firstError rs = Option.none ↔ ∀ r ∈ rs, ∃ b, r = Except.ok b := by
  induction rs with
  | nil => simp [firstError]
  | cons x rest ih =>
    cases x with
    | ok b => simp [firstError, ih]
    | error e => simp [firstError]

end AwsS3

/-! ## Lemmas about the enrichment field map -/

namespace AwsS3

theorem lookupField_append_right (l1 l2 : LogEvent) (k : String)
    (h : lookupField l1 k = Option.none) :
    lookupField (l1 ++ l2) k = lookupField l2 k := by
  induction l1 with
  | nil => rfl
  | cons p t ih =>
    by_cases hp : p.1 = k
    · simp [lookupField, hp] at h
    · show (if p.1 = k then some p.2 else lookupField (t ++ l2) k) = lookupField l2 k
      rw [if_neg hp]
      simp only [lookupField, hp, if_neg, if_false] at h
      exact ih h

theorem lookupField_append_last_ne (l : LogEvent) (k v k2 : String) (h : k2 ≠ k) :
    lookupField (l ++ [(k, v)]) k2 = lookupField l k2 := by
  induction l with
  | nil =>
    show (if k = k2 then some v else Option.none) = Option.none
    rw [if_neg (fun e => h e.symm)]
  | cons p t ih =>
    show (if p.1 = k2 then some p.2 else lookupField (t ++ [(k, v)]) k2) =
      (if p.1 = k2 then some p.2 else lookupField t k2)
    rw [ih]

theorem lookupField_removeKey_self (l : LogEvent) (k : String) :
    lookupField (removeKey k l) k = Option.none := by
  induction l with
  | nil => rfl
  | cons p t ih =>
    show lookupField (if p.1 = k then removeKey k t else p :: removeKey k t) k = Option.none
    by_cases hp : p.1 = k
    · rw [if_pos hp]; exact ih
    · rw [if_neg hp]
      show (if p.1 = k then some p.2 else lookupField (removeKey k t) k) = Option.none
      rw [if_neg hp]
      exact ih

theorem lookupField_removeKey_ne (l : LogEvent) (k k2 : String) (h : k2 ≠ k) :
    lookupField (removeKey k l) k2 = lookupField l k2 := by
  induction l with
  | nil => rfl
  | cons p t ih =>
    show lookupField (if p.1 = k then removeKey k t else p :: removeKey k t) k2 =
      (if p.1 = k2 then some p.2 else lookupField t k2)
    by_cases hp : p.1 = k
    · have hne : ¬ p.1 = k2 := by rw [hp]; exact fun e => h e.symm
      rw [if_pos hp, ih, if_neg hne]
    · rw [if_neg hp]
      show (if p.1 = k2 then some p.2 else lookupField (removeKey k t) k2) =
        (if p.1 = k2 then some p.2 else lookupField t k2)
      rw [ih]

theorem lookupField_insert_self (l : LogEvent) (k v : String) :
    lookupField (insertField l k v) k = some v := by
  rw [insertField, lookupField_append_right _ _ _ (lookupField_removeKey_self l k)]
  show (if k = k then some v else Option.none) = some v
  rw [if_pos rfl]

theorem lookupField_insert_ne (l : LogEvent) (k v k2 : String) (h : k2 ≠ k) :
    lookupField (insertField l k v) k2 = lookupField l k2 := by
  rw [insertField, lookupField_append_last_ne _ _ _ _ h, lookupField_removeKey_ne l k k2 h]

theorem countKey_append (l1 l2 : LogEvent) (k : String) :
    countKey (l1 ++ l2) k = countKey l1 k + countKey l2 k := by
  induction l1 with
  | nil =>
    show countKey l2 k = 0 + countKey l2 k
    omega
  | cons p t ih =>
    show (if p.1 = k then 1 else 0) + countKey (t ++ l2) k =
      ((if p.1 = k then 1 else 0) + countKey t k) + countKey l2 k
    rw [ih]
    omega

theorem countKey_removeKey_self (l : LogEvent) (k : String) :
    countKey (removeKey k l) k = 0 := by
  induction l with
  | nil => rfl
  | cons p t ih =>
    show countKey (if p.1 = k then removeKey k t else p :: removeKey k t) k = 0
    by_cases hp : p.1 = k
    · rw [if_pos hp]; exact ih
    · rw [if_neg hp]
      show (if p.1 = k then 1 else 0) + countKey (removeKey k t) k = 0
      rw [if_neg hp, ih]

theorem countKey_removeKey_ne (l : LogEvent) (k k2 : String) (h : k2 ≠ k) :
    countKey (removeKey k l) k2 = countKey l k2 := by
  induction l with
  | nil => rfl
  | cons p t ih =>
    show countKey (if p.1 = k then removeKey k t else p :: removeKey k t) k2 =
      (if p.1 = k2 then 1 else 0) + countKey t k2
    by_cases hp : p.1 = k
    · have hne : ¬ p.1 = k2 := by rw [hp]; exact fun e => h e.symm
      rw [if_pos hp, ih, if_neg hne]
      omega
    · rw [if_neg hp]
      show (if p.1 = k2 then 1 else 0) + countKey (removeKey k t) k2 =
        (if p.1 = k2 then 1 else 0) + countKey t k2
      rw [ih]

theorem countKey_insert_self (l : LogEvent) (k v : String) :
    countKey (insertField l k v) k = 1 := by
  rw [insertField, countKey_append, countKey_removeKey_self]
  show 0 + ((if k = k then 1 else 0) + 0) = 1
  rw [if_pos rfl]

theorem countKey_insert_ne (l : LogEvent) (k v k2 : String) (h : k2 ≠ k) :
    countKey (insertField l k v) k2 = countKey l k2 := by
  rw [insertField, countKey_append, countKey_removeKey_ne l k k2 h]
  show countKey l k2 + ((if k = k2 then 1 else 0) + 0) = countKey l k2
  rw [if_neg (fun e => h e.symm)]
  omega

end AwsS3

/-! ## Lemmas about metadata insertion -/

namespace AwsS3

theorem enrich_some_eq (r : S3EventRecord) (md : List (String × String)) (line : Bytes) :
    enrich r (some md) line =
      insertAll md (insertField (insertField (insertField [("message", line)]
        "bucket" r.s3.bucket.name) "object" r.s3.object.key) "region" r.aws_region) := rfl

theorem countKey_insertAll (md : List (String × String)) (l : LogEvent) (k : String)
    (h : countKey l k = 1) : countKey (insertAll md l) k = 1 := by
  induction md generalizing l with
  | nil => exact h
  | cons p t ih =>
    show countKey (insertAll t (insertField l p.1 p.2)) k = 1
    by_cases hp : p.1 = k
    · exact ih _ (by rw [← hp]; exact countKey_insert_self l p.1 p.2)
    · exact ih _ (by rw [countKey_insert_ne l p.1 p.2 k (fun e => hp e.symm)]; exact h)

theorem lookupField_insertAll_notMem (md : List (String × String)) (l : LogEvent) (k : String)
    (h : k ∉ md.map Prod.fst) : lookupField (insertAll md l) k = lookupField l k := by
  induction md generalizing l with
  | nil => rfl
  | cons p t ih =>
    have hp : k ≠ p.1 := by
      intro e
      exact h (by rw [e]; exact List.mem_cons_self _ _)
    have ht : k ∉ t.map Prod.fst := by
      intro e
      exact h (List.mem_cons_of_mem _ e)
    show lookupField (insertAll t (insertField l p.1 p.2)) k = lookupField l k
    rw [ih _ ht, lookupField_insert_ne l p.1 p.2 k hp]

theorem lookupField_insertAll_mem (md : List (String × String)) (l : LogEvent)
    (hnd : (md.map Prod.fst).Nodup) :
    ∀ p ∈ md, lookupField (insertAll md l) p.1 = some p.2 := by
  induction md generalizing l with
  | nil => intro p hp; cases hp
  | cons q t ih =>
    intro p hp
    have hnd2 : (t.map Prod.fst).Nodup := (List.nodup_cons.mp hnd).2
    cases hp with
    | head =>
      have hq : q.1 ∉ t.map Prod.fst := (List.nodup_cons.mp hnd).1
      show lookupField (insertAll t (insertField l q.1 q.2)) q.1 = some q.2
      rw [lookupField_insertAll_notMem t _ q.1 hq, lookupField_insert_self]
    | tail _ hmem =>
      show lookupField (insertAll t (insertField l q.1 q.2)) p.1 = some p.2
      exact ih _ hnd2 p hmem

end AwsS3

/-! ## Lemmas about the message loop -/

namespace AwsS3

theorem deleteHandleOf_recordEffects (b k : String) (evs : List LogEvent) (s : Bool) :
    ∀ x ∈ recordEffects b k evs s, deleteHandleOf x = Option.none := by
  intro x hx
  rcases List.mem_cons.mp hx with h1 | h2
  · rw [h1]; rfl
  · rcases List.mem_append.mp h2 with h3 | h4
    · rcases List.mem_map.mp h3 with ⟨e, _, he⟩
      rw [← he]; rfl
    · by_cases hs : s = true
      · rw [if_pos hs] at h4; cases h4
      · rw [if_neg hs] at h4
        rw [List.mem_singleton.mp h4]; rfl

theorem deleteHandleOf_record_effects (ing : SqsIngestor) (env : Env) (r : S3EventRecord) :
    ∀ x ∈ (handle_s3_event_record ing env r).2, deleteHandleOf x = Option.none := by
  intro x hx
  by_cases hk : r.event_name.kind = "ObjectCreated"
  · by_cases hr : ing.region = r.aws_region
    · cases hobj : env.getObject r.s3.bucket.name r.s3.object.key with
      | error e =>
        simp [handle_s3_event_record, hk, hr, hobj] at hx
        rw [hx]; rfl
      | ok obj =>
        cases hbody : obj.body with
        | none =>
          simp [handle_s3_event_record, hk, hr, hobj, hbody] at hx
          rw [hx]; rfl
        | some results =>
          have hx2 : x ∈ recordEffects r.s3.bucket.name r.s3.object.key
              ((match ing.aggregate with
                | some f => f (readLines results)
                | Option.none => readLines results).map (enrich r obj.metadata))
              (env.sinkOk r.s3.bucket.name r.s3.object.key) := by
            cases hfe : firstError results with
            | none => simpa [handle_s3_event_record, hk, hr, hobj, hbody, hfe] using hx
            | some e => simpa [handle_s3_event_record, hk, hr, hobj, hbody, hfe] using hx
          exact deleteHandleOf_recordEffects _ _ _ _ x hx2
    · simp [handle_s3_event_record, hk, hr] at hx
  · simp [handle_s3_event_record, hk] at hx

theorem handle_event_effects_no_delete (ing : SqsIngestor) (env : Env)
    (recs : List S3EventRecord) :
    ∀ x ∈ (handle_s3_event ing env recs).2, deleteHandleOf x = Option.none := by
  induction recs with
  | nil => intro x hx; cases hx
  | cons r rest ih =>
    intro x hx
    rcases hrec : handle_s3_event_record ing env r with ⟨res, effs⟩
    cases res with
    | ok u =>
      cases u
      simp [handle_s3_event, hrec] at hx
      rcases hx with h1 | h2
      · exact deleteHandleOf_record_effects ing env r x (by rw [hrec]; exact h1)
      · exact ih x h2
    | error e =>
      simp [handle_s3_event, hrec] at hx
      exact deleteHandleOf_record_effects ing env r x (by rw [hrec]; exact hx)

theorem handle_message_effects_no_delete (ing : SqsIngestor) (env : Env) (msg : Message) :
    ∀ x ∈ (handle_sqs_message ing env msg).2, deleteHandleOf x = Option.none := by
  intro x hx
  cases hp : env.parseBody (msg.body.getD "") with
  | error e => simp [handle_sqs_message, hp] at hx
  | ok ev =>
    simp [handle_sqs_message, hp] at hx
    exact handle_event_effects_no_delete ing env ev.records x hx

theorem handle_event_ok_iff (ing : SqsIngestor) (env : Env) (recs : List S3EventRecord) :
    (handle_s3_event ing env recs).1 = Except.ok () ↔
      ∀ r ∈ recs, (handle_s3_event_record ing env r).1 = Except.ok () := by
  induction recs with
  | nil => simp [handle_s3_event]
  | cons r rest ih =>
    rcases hrec : handle_s3_event_record ing env r with ⟨res, effs⟩
    cases res with
    | ok u =>
      cases u
      simp [handle_s3_event, hrec, List.forall_mem_cons, ih]
    | error e =>
      simp [handle_s3_event, hrec, List.forall_mem_cons]

theorem handle_record_ok_iff (ing : SqsIngestor) (env : Env) (r : S3EventRecord) :
    (handle_s3_event_record ing env r).1 = Except.ok () ↔ RecordOk ing env r := by
  by_cases hk : r.event_name.kind = "ObjectCreated"
  · by_cases hr : ing.region = r.aws_region
    · cases hobj : env.getObject r.s3.bucket.name r.s3.object.key with
      | error e => simp [handle_s3_event_record, hk, hr, hobj, RecordOk]
      | ok obj =>
        cases hbody : obj.body with
        | none => simp [handle_s3_event_record, hk, hr, hobj, hbody, RecordOk]
        | some results =>
          cases hfe : firstError results with
          | none => simp [handle_s3_event_record, hk, hr, hobj, hbody, hfe, RecordOk]
          | some e => simp [handle_s3_event_record, hk, hr, hobj, hbody, hfe, RecordOk]
    · simp [handle_s3_event_record, hk, hr, RecordOk]
  · simp [handle_s3_event_record, hk, RecordOk]

theorem handle_message_ok_iff (ing : SqsIngestor) (env : Env) (msg : Message) :
    (handle_sqs_message ing env msg).1 = Except.ok () ↔
      ∃ ev, env.parseBody (msg.body.getD "") = Except.ok ev ∧
        ∀ r ∈ ev.records, RecordOk ing env r := by
  cases hp : env.parseBody (msg.body.getD "") with
  | error e => simp [handle_sqs_message, hp]
  | ok ev => simp [handle_sqs_message, hp, handle_event_ok_iff, handle_record_ok_iff]

end AwsS3

namespace AwsS3

theorem filterMap_deleteHandle_nil (effs : List Effect)
    (h : ∀ x ∈ effs, deleteHandleOf x = Option.none) :
    effs.filterMap deleteHandleOf = [] := by
  induction effs with
  | nil => rfl
  | cons x t ih =>
    rw [List.filterMap_cons, h x (List.mem_cons_self x t)]
    exact ih (fun y hy => h y (List.mem_cons_of_mem x hy))

theorem deletesOf_single (ing : SqsIngestor) (env : Env) (msg : Message) :
    deletesOf (process_messages ing env [msg]) =
      (match msg.receipt_handle with
       | Option.none => []
       | some h =>
         if ing.delete_message = true ∧ (handle_sqs_message ing env msg).1 = Except.ok ()
         then [h] else []) := by
  cases hrh : msg.receipt_handle with
  | none =>
    simp [process_messages, hrh, deletesOf, TickResult.prepend, TickResult.effects,
      deleteHandleOf]
  | some h =>
    rcases hres : handle_sqs_message ing env msg with ⟨res, effs⟩
    have heffs : ∀ x ∈ effs, deleteHandleOf x = Option.none := by
      intro x hx
      exact handle_message_effects_no_delete ing env msg x (by rw [hres]; exact hx)
    have hnil := filterMap_deleteHandle_nil effs heffs
    cases res with
    | ok u =>
      cases u
      by_cases hdm : ing.delete_message = true
      · by_cases hdel : env.deleteResult h = true
        · simp [process_messages, hrh, hres, hdm, hdel, deletesOf, TickResult.prepend,
            TickResult.effects, List.filterMap_append, hnil, deleteHandleOf]
        · simp [process_messages, hrh, hres, hdm, hdel, deletesOf, TickResult.prepend,
            TickResult.effects, List.filterMap_append, hnil, deleteHandleOf]
      · simp [process_messages, hrh, hres, hdm, deletesOf, TickResult.prepend,
          TickResult.effects, hnil]
    | error e =>
      simp [process_messages, hrh, hres, deletesOf, TickResult.prepend,
        TickResult.effects, hnil]

theorem handle_s3_event_append_ok (ing : SqsIngestor) (env : Env)
    (pre rest : List S3EventRecord)
    (h : ∀ r ∈ pre, (handle_s3_event_record ing env r).1 = Except.ok ()) :
    handle_s3_event ing env (pre ++ rest) =
      ((handle_s3_event ing env rest).1,
       (handle_s3_event ing env pre).2 ++ (handle_s3_event ing env rest).2) := by
  induction pre with
  | nil => simp [handle_s3_event]
  | cons r t ih =>
    have hr := h r (List.mem_cons_self r t)
    rcases hrec : handle_s3_event_record ing env r with ⟨res, effs⟩
    rw [hrec] at hr
    simp only at hr
    cases res with
    | ok u =>
      cases u
      have ih2 := ih (fun x hx => h x (List.mem_cons_of_mem r hx))
      simp [handle_s3_event, hrec, ih2]
    | error e => exact absurd hr (by simp)

end AwsS3

/-! ## Event-name parsing characterisation and claims C3, C4, C5 -/

namespace AwsS3

theorem splitFirstColon_eq_none_iff (l : List Char) :
    splitFirstColon l = Option.none ↔ ':' ∉ l := by
  induction l with
  | nil => simp [splitFirstColon]
  | cons c rest ih =>
    by_cases hc : c = ':'
    · subst hc
      simp [splitFirstColon]
    · cases h : splitFirstColon rest with
      | none =>
        have hcol : ¬ ':' = c := fun e => hc e.symm
        simp only [splitFirstColon, hc, if_neg, h]
        simp [List.mem_cons, ih.mp h, hcol]
      | some pq =>
        rcases pq with ⟨pre, post⟩
        simp only [splitFirstColon, hc, if_neg, h]
        have hr : ':' ∈ rest := by
          by_contra hn
          rw [ih.mpr hn] at h
          cases h
        simp [List.mem_cons, hr]

theorem splitFirstColon_eq_some (l : List Char) (h : ':' ∈ l) :
    splitFirstColon l =
      some (l.takeWhile (fun a => a != ':'), (l.dropWhile (fun a => a != ':')).tail) := by
  induction l with
  | nil => cases h
  | cons c rest ih =>
    by_cases hc : c = ':'
    · subst hc
      simp [splitFirstColon, List.takeWhile_cons, List.dropWhile_cons]
    · have hr : ':' ∈ rest := by
        rcases List.mem_cons.mp h with h1 | h2
        · exact absurd h1.symm hc
        · exact h2
      have hb : (c != ':') = true := by simp [hc]
      simp only [splitFirstColon, hc, if_neg, ih hr, List.takeWhile_cons, hb,
        List.dropWhile_cons, if_pos]
      simp

end AwsS3

namespace AwsS3

theorem deserialize_event_name_no_colon (s : String) (h : ':' ∉ s.toList) :
    deserialize_event_name s = Except.error "Missing event name" := by
  have hs : splitFirstColon s.data = Option.none := (splitFirstColon_eq_none_iff _).mpr h
  simp [deserialize_event_name, splitn2_colon, hs]

theorem deserialize_event_name_colon (s : String) (h : ':' ∈ s.toList) :
    deserialize_event_name s =
      Except.ok { kind := String.mk (s.toList.takeWhile (fun a => a != ':')),
                  name := String.mk ((s.toList.dropWhile (fun a => a != ':')).tail) } := by
  have hs : splitFirstColon s.data =
      some (s.data.takeWhile (fun a => a != ':'), (s.data.dropWhile (fun a => a != ':')).tail) :=
    splitFirstColon_eq_some s.toList h
  simp [deserialize_event_name, splitn2_colon, hs]

/-- Claim C4, amended: deserialisation of `eventName` fails (yielding
`InvalidSqsMessage` for the enclosing message) exactly when the string lacks
a `:` separator; otherwise it succeeds with `kind` = the part before the
first `:` and `name` = the rest, either of which may be empty — the source
does not reject empty halves. -/
theorem claim_C4_event_name_parse (s : String) :
    (':' ∉ s.toList → ∃ e, deserialize_event_name s = Except.error e) ∧
    (':' ∈ s.toList →
      deserialize_event_name s =
        Except.ok { kind := String.mk (s.toList.takeWhile (fun a => a != ':')),
                    name := String.mk ((s.toList.dropWhile (fun a => a != ':')).tail) }) :=
  ⟨fun h => ⟨"Missing event name", deserialize_event_name_no_colon s h⟩,
   fun h => deserialize_event_name_colon s h⟩

/-- Claim C4, counterexample to the original claim: `":x"` and `"x:"` have an
empty half, which the claim says must fail deserialisation, yet the source
deserialiser accepts both. -/
theorem claim_C4_counterexample :
    deserialize_event_name ":x" = Except.ok { kind := "", name := "x" } ∧
    deserialize_event_name "x:" = Except.ok { kind := "x", name := "" } := ⟨rfl, rfl⟩

/-- Claim C4, witness: the amended theorem applied to a separator-free string
and to a well-formed event name. -/
theorem claim_C4_witness :
    (∃ e, deserialize_event_name "ObjectCreatedPut" = Except.error e) ∧
    deserialize_event_name "ObjectCreated:Put" =
      Except.ok { kind := "ObjectCreated", name := "Put" } := by
  constructor
  · exact (claim_C4_event_name_parse "ObjectCreatedPut").1 (by decide)
  · exact (claim_C4_event_name_parse "ObjectCreated:Put").2 (by decide)

/-- Claim C3: the event-name round-trip the spec promises does not hold on
the source: deserialising `"ObjectCreated:Put"` yields
`{kind := "ObjectCreated", name := "Put"}`, but the serialiser emits
`name` before `kind`, producing `"Put:ObjectCreated"` instead of the
original string. -/
theorem claim_C3_roundtrip_violation :
    deserialize_event_name "ObjectCreated:Put" =
      Except.ok { kind := "ObjectCreated", name := "Put" } ∧
    serialize_event_name { kind := "ObjectCreated", name := "Put" } = "Put:ObjectCreated" ∧
    serialize_event_name { kind := "ObjectCreated", name := "Put" } ≠ "ObjectCreated:Put" := by
  refine ⟨rfl, rfl, ?_⟩
  decide

/-- Claim C5: compression detection tries the content-encoding rule, then the
content-type rule, then the key-extension rule, returning the first `some`;
when none matches the decoder substitutes `Compression::None`; including the
concrete table of the spec. -/
theorem claim_C5_determine_compression :
    (∀ (key : String) (ce ct : Option String) (c : Compression),
      ce.bind content_encoding_to_compression = some c →
      determine_compression key ce ct = some c) ∧
    (∀ (key : String) (ce ct : Option String) (c : Compression),
      ce.bind content_encoding_to_compression = Option.none →
      ct.bind content_type_to_compression = some c →
      determine_compression key ce ct = some c) ∧
    (∀ (key : String) (ce ct : Option String),
      ce.bind content_encoding_to_compression = Option.none →
      ct.bind content_type_to_compression = Option.none →
      determine_compression key ce ct = object_key_to_compression key) ∧
    determine_compression "out.log" (some "gzip") Option.none = some Compression.gzip ∧
    determine_compression "out.log" Option.none (some "application/gzip") =
      some Compression.gzip ∧
    determine_compression "out.log.gz" Option.none Option.none = some Compression.gzip ∧
    determine_compression "out.txt" Option.none Option.none = Option.none ∧
    resolve_compression Compression.auto "out.txt" Option.none Option.none =
      Compression.none ∧
    (∀ (key : String) (ce ct : Option String) (c : Compression),
      c ≠ Compression.auto → resolve_compression c key ce ct = c) := by
  refine ⟨?_, ?_, ?_, by decide, by decide, by decide, by decide, by decide, ?_⟩
  · intro key ce ct c h
    unfold determine_compression
    rw [h]
    rfl
  · intro key ce ct c h1 h2
    unfold determine_compression
    rw [h1]
    show (ct.bind content_type_to_compression).orElse
      (fun _ => object_key_to_compression key) = some c
    rw [h2]
    rfl
  · intro key ce ct h1 h2
    unfold determine_compression
    rw [h1]
    show (ct.bind content_type_to_compression).orElse
      (fun _ => object_key_to_compression key) = object_key_to_compression key
    rw [h2]
    rfl
  · intro key ce ct c h
    cases c with
    | auto => exact absurd rfl h
    | none => rfl
    | gzip => rfl
    | zstd => rfl

/-- Claim C5, witness: the priority conjuncts applied at concrete inputs. -/
theorem claim_C5_witness :
    determine_compression "k" (some "zstd") (some "application/gzip") =
      some Compression.zstd ∧
    determine_compression "k.gz" Option.none (some "application/zstd") =
      some Compression.zstd ∧
    determine_compression "k.zst" Option.none Option.none =
      object_key_to_compression "k.zst" ∧
    resolve_compression Compression.gzip "x" Option.none Option.none =
      Compression.gzip :=
  ⟨claim_C5_determine_compression.1 "k" (some "zstd") (some "application/gzip")
      Compression.zstd rfl,
   claim_C5_determine_compression.2.1 "k.gz" Option.none (some "application/zstd")
      Compression.zstd rfl rfl,
   claim_C5_determine_compression.2.2.1 "k.zst" Option.none Option.none rfl rfl,
   (claim_C5_determine_compression.2.2.2.2.2.2.2.2) "x" Option.none Option.none
      Compression.gzip (by decide)⟩

end AwsS3

/-! ## Claims C1, C2, C6, C10 -/

namespace AwsS3

/-- Claim C10: the `unwrap` after `take_while` never panics — every item
surviving `take_while` is `Ok`, so mapping `unwrap` over the truncated
stream always succeeds (and produces exactly the stream the splitter
yields). -/
theorem claim_C10_unwrap_safe (rs : List (Except String Bytes)) :
    (∀ r ∈ takeWhileOk rs, ∃ b, r = Except.ok b) ∧
    readLinesChecked rs = some (readLines rs) :=
  ⟨mem_takeWhileOk_ok rs, readLinesChecked_eq_some rs⟩

/-- Claim C10, witness: the theorem applied to a stream with an error after
one chunk. -/
theorem claim_C10_witness :
    readLinesChecked [Except.ok "a", Except.error "boom"] =
      some (readLines [Except.ok "a", Except.error "boom"]) :=
  (claim_C10_unwrap_safe [Except.ok "a", Except.error "boom"]).2

/-- Claim C6: when the framed reader errors after some decoded chunks, the
splitter yields exactly those chunks and stops (nothing after the error and
no partial chunk), the error string is recorded out-of-band, and — after the
sink has drained — the result for the record is `ReadObject` carrying that string;
with no read error the result is success. -/
theorem claim_C6_read_error (pre : List Bytes) (e : String)
    (rest : List (Except String Bytes)) :
    (readLines (pre.map Except.ok ++ Except.error e :: rest) = pre ∧
     firstError (pre.map Except.ok ++ Except.error e :: rest) = some e) ∧
    (readLines (pre.map Except.ok) = pre ∧
     firstError (pre.map Except.ok) = Option.none) ∧
    (∀ (ing : SqsIngestor) (env : Env) (r : S3EventRecord) (obj : ObjectData)
        (results : List (Except String Bytes)),
      r.event_name.kind = "ObjectCreated" →
      ing.region = r.aws_region →
      env.getObject r.s3.bucket.name r.s3.object.key = Except.ok obj →
      obj.body = some results →
      (handle_s3_event_record ing env r).1 =
        (match firstError results with
         | some err =>
           Except.error (ProcessingError.readObject err r.s3.bucket.name r.s3.object.key)
         | Option.none => Except.ok ())) := by
  refine ⟨⟨readLines_error pre e rest, firstError_error pre e rest⟩,
    ⟨readLines_ok_front pre, by simpa using firstError_ok_front pre []⟩, ?_⟩
  intro ing env r obj results hk hr hobj hbody
  cases hfe : firstError results with
  | none => simp [handle_s3_event_record, hk, hr, hobj, hbody, hfe]
  | some err => simp [handle_s3_event_record, hk, hr, hobj, hbody, hfe]

/-- Claim C6, witness: the per-record conjunct applied to the read-error
fixture, together with the concrete splitter outputs. -/
theorem claim_C6_witness :
    readLines [Except.ok "l1", Except.error "io", Except.ok "l2"] = ["l1"] ∧
    firstError [Except.ok "l1", Except.error "io", Except.ok "l2"] = some "io" ∧
    (handle_s3_event_record exIng envReadErr exRec).1 =
      Except.error (ProcessingError.readObject "io" "b" "k") := by
  refine ⟨((claim_C6_read_error ["l1"] "io" [Except.ok "l2"]).1).1,
    ((claim_C6_read_error ["l1"] "io" [Except.ok "l2"]).1).2, ?_⟩
  have h := ((claim_C6_read_error [] "io" []).2.2) exIng envReadErr exRec
    { metadata := Option.none, content_encoding := Option.none,
      content_type := Option.none,
      body := some [Except.ok "l1", Except.error "io"] }
    [Except.ok "l1", Except.error "io"] rfl rfl rfl rfl
  exact h.trans (by decide)

/-- Claim C2: the spec requires delete failures to be non-fatal, but the
source calls `.unwrap()` on the `delete_message` result: with a message
whose handling succeeds, `delete_message = true` and a failing delete, the
tick panics after the delete attempt and the remaining message of the batch
is never processed. -/
theorem claim_C2_delete_unwrap_panics :
    process_messages exIng envDeleteFail [exMsg, exMsg] =
      TickResult.panicked [Effect.deleteAttempt "rh"] := rfl

/-- Claim C1, counterexample to the original claim: with a failing sink
(`send_all` returns an error, which the source logs and discards with
`.ok()`), a clean read still leads to the message being deleted, although
its records were not forwarded without error. -/
theorem claim_C1_counterexample :
    Effect.sinkError ∈ (process_messages exIng envSinkFail [exMsg]).effects ∧
    deletesOf (process_messages exIng envSinkFail [exMsg]) = ["rh"] := by
  constructor
  · decide
  · decide

/-- Claim C1, amended: delete is called for a message iff it has a receipt
handle, `delete_message` is true, and handling succeeded — where handling
succeeds iff the body parses and every record is skipped (not
`ObjectCreated`) or has the configured region, a successful `GetObject`,
and no read error. Parse failure, wrong region, `GetObject` failure,
`ReadObject` failure or a missing receipt handle each prevent deletion; a
sink send failure alone does not. -/
theorem claim_C1_ack_discipline (ing : SqsIngestor) (env : Env) (msg : Message) :
    (deletesOf (process_messages ing env [msg]) ≠ [] ↔
      (∃ h, msg.receipt_handle = some h) ∧ ing.delete_message = true ∧
      (handle_sqs_message ing env msg).1 = Except.ok ()) ∧
    ((handle_sqs_message ing env msg).1 = Except.ok () ↔
      ∃ ev, env.parseBody (msg.body.getD "") = Except.ok ev ∧
        ∀ r ∈ ev.records, RecordOk ing env r) := by
  refine ⟨?_, handle_message_ok_iff ing env msg⟩
  rw [deletesOf_single]
  cases hrh : msg.receipt_handle with
  | none => simp
  | some h =>
    by_cases hc : ing.delete_message = true ∧
        (handle_sqs_message ing env msg).1 = Except.ok ()
    · simp [hc]
    · simp only [if_neg hc]
      simp [hc]

/-- Claim C1, witness: the amended theorem applied to the sink-failure
fixture, where handling succeeds and the delete is issued. -/
theorem claim_C1_witness :
    deletesOf (process_messages exIng envSinkFail [exMsg]) ≠ [] :=
  (claim_C1_ack_discipline exIng envSinkFail exMsg).1.mpr
    ⟨⟨"rh", rfl⟩, rfl, by decide⟩

end AwsS3

/-! ## Claims C7, C8 -/

namespace AwsS3

/-- Claim C7: an `ObjectCreated` record whose region differs from the
ingestor fails the whole message with `WrongRegion` carrying the bucket, key
and region of that record; its handling performs no fetch at all, records after
it in the notification are not processed, and the message is not deleted. -/
theorem claim_C7_wrong_region (ing : SqsIngestor) (env : Env) (r : S3EventRecord)
    (hk : r.event_name.kind = "ObjectCreated") (hr : ing.region ≠ r.aws_region) :
    handle_s3_event_record ing env r =
      (Except.error (ProcessingError.wrongRegion r.aws_region r.s3.bucket.name
        r.s3.object.key), []) ∧
    (∀ pre post, (∀ p ∈ pre, (handle_s3_event_record ing env p).1 = Except.ok ()) →
      handle_s3_event ing env (pre ++ r :: post) =
        (Except.error (ProcessingError.wrongRegion r.aws_region r.s3.bucket.name
          r.s3.object.key),
         (handle_s3_event ing env pre).2)) ∧
    (∀ (msg : Message) (ev : S3Event) (pre post : List S3EventRecord),
      env.parseBody (msg.body.getD "") = Except.ok ev →
      ev.records = pre ++ r :: post →
      (∀ p ∈ pre, (handle_s3_event_record ing env p).1 = Except.ok ()) →
      deletesOf (process_messages ing env [msg]) = []) := by
  have hrec : handle_s3_event_record ing env r =
      (Except.error (ProcessingError.wrongRegion r.aws_region r.s3.bucket.name
        r.s3.object.key), []) := by
    simp [handle_s3_event_record, hk, hr]
  have hev : ∀ pre post,
      (∀ p ∈ pre, (handle_s3_event_record ing env p).1 = Except.ok ()) →
      handle_s3_event ing env (pre ++ r :: post) =
        (Except.error (ProcessingError.wrongRegion r.aws_region r.s3.bucket.name
          r.s3.object.key), (handle_s3_event ing env pre).2) := by
    intro pre post hpre
    rw [handle_s3_event_append_ok ing env pre (r :: post) hpre]
    have hcons : handle_s3_event ing env (r :: post) =
        (Except.error (ProcessingError.wrongRegion r.aws_region r.s3.bucket.name
          r.s3.object.key), []) := by
      simp [handle_s3_event, hrec]
    rw [hcons]
    simp
  refine ⟨hrec, hev, ?_⟩
  intro msg ev pre post hp hrecs hpre
  rw [deletesOf_single]
  cases hrh : msg.receipt_handle with
  | none => rfl
  | some h =>
    have hmsg : (handle_sqs_message ing env msg).1 =
        Except.error (ProcessingError.wrongRegion r.aws_region r.s3.bucket.name
          r.s3.object.key) := by
      simp [handle_sqs_message, hp, hrecs, hev pre post hpre]
    simp [hmsg]

/-- Claim C7, witness: the theorem applied to the wrong-region fixture
(`awsRegion = "eu-west-1"`, ingestor region `us-east-1`). -/
theorem claim_C7_witness :
    handle_s3_event_record exIng envWrongRegion exRecWrongRegion =
      (Except.error (ProcessingError.wrongRegion "eu-west-1" "b" "k"), []) ∧
    deletesOf (process_messages exIng envWrongRegion [exMsg]) = [] := by
  have h := claim_C7_wrong_region exIng envWrongRegion exRecWrongRegion rfl (by decide)
  constructor
  · exact h.1.trans (by decide)
  · exact h.2.2 exMsg { records := [exRecWrongRegion] } [] [] rfl rfl
      (by intro p hp; cases hp)

/-- Claim C8: a record whose `eventName` kind is not `ObjectCreated` is
skipped silently — handling succeeds with no fetch and no forward — and a
message consisting only of such records is deleted when `delete_message`
holds. -/
theorem claim_C8_skip_non_object_created (ing : SqsIngestor) (env : Env) :
    (∀ r : S3EventRecord, r.event_name.kind ≠ "ObjectCreated" →
      handle_s3_event_record ing env r = (Except.ok (), [])) ∧
    (∀ (msg : Message) (ev : S3Event) (h : String),
      msg.receipt_handle = some h →
      ing.delete_message = true →
      env.parseBody (msg.body.getD "") = Except.ok ev →
      (∀ r ∈ ev.records, r.event_name.kind ≠ "ObjectCreated") →
      env.deleteResult h = true →
      process_messages ing env [msg] =
        TickResult.completed [Effect.deleteAttempt h]) := by
  have hskip : ∀ r : S3EventRecord, r.event_name.kind ≠ "ObjectCreated" →
      handle_s3_event_record ing env r = (Except.ok (), []) := by
    intro r hkind
    simp [handle_s3_event_record, hkind]
  refine ⟨hskip, ?_⟩
  intro msg ev h hrh hdm hp hall hdel
  have hev : ∀ recs : List S3EventRecord,
      (∀ r ∈ recs, r.event_name.kind ≠ "ObjectCreated") →
      handle_s3_event ing env recs = (Except.ok (), []) := by
    intro recs hrecs
    induction recs with
    | nil => rfl
    | cons r t ih =>
      have h1 := hskip r (hrecs r (List.mem_cons_self r t))
      have h2 := ih (fun x hx => hrecs x (List.mem_cons_of_mem r hx))
      simp [handle_s3_event, h1, h2]
  have hmsg : handle_sqs_message ing env msg = (Except.ok (), []) := by
    simp [handle_sqs_message, hp, hev ev.records hall]
  simp [process_messages, hrh, hmsg, hdm, hdel, TickResult.prepend]

/-- Claim C8, witness: the theorem applied to a notification holding only an
`ObjectRemoved:Delete` record: nothing is fetched or forwarded and the
message is deleted. -/
theorem claim_C8_witness :
    handle_s3_event_record exIng envSkip exRecRemoved = (Except.ok (), []) ∧
    process_messages exIng envSkip [exMsg] =
      TickResult.completed [Effect.deleteAttempt "rh"] := by
  have h := claim_C8_skip_non_object_created exIng envSkip
  exact ⟨h.1 exRecRemoved (by decide),
    h.2 exMsg { records := [exRecRemoved] } "rh" rfl rfl rfl
      (by intro x hx; rw [List.mem_singleton.mp hx]; decide) rfl⟩

end AwsS3

/-! ## Claim C9 -/

namespace AwsS3

theorem forward_effect_is_enrichment (r : S3EventRecord) (ing : SqsIngestor) (env : Env)
    (ev : LogEvent) (hmem : Effect.forward ev ∈ (handle_s3_event_record ing env r).2) :
    ∃ obj line2, env.getObject r.s3.bucket.name r.s3.object.key = Except.ok obj ∧
      ev = enrich r obj.metadata line2 := by
  by_cases hk : r.event_name.kind = "ObjectCreated"
  · by_cases hreg : ing.region = r.aws_region
    · cases hobj : env.getObject r.s3.bucket.name r.s3.object.key with
      | error e => simp [handle_s3_event_record, hk, hreg, hobj] at hmem
      | ok obj =>
        cases hbody : obj.body with
        | none => simp [handle_s3_event_record, hk, hreg, hobj, hbody] at hmem
        | some results =>
          have hmem2 : Effect.forward ev ∈ recordEffects r.s3.bucket.name r.s3.object.key
              ((match ing.aggregate with
                | some f => f (readLines results)
                | Option.none => readLines results).map (enrich r obj.metadata))
              (env.sinkOk r.s3.bucket.name r.s3.object.key) := by
            cases hfe : firstError results with
            | none => simpa [handle_s3_event_record, hk, hreg, hobj, hbody, hfe] using hmem
            | some e2 => simpa [handle_s3_event_record, hk, hreg, hobj, hbody, hfe] using hmem
          simp only [recordEffects] at hmem2
          rcases List.mem_cons.mp hmem2 with h1 | h2
          · simp at h1
          · rcases List.mem_append.mp h2 with h3 | h4
            · rcases List.mem_map.mp h3 with ⟨evnt, hevnt, heq⟩
              rcases List.mem_map.mp hevnt with ⟨line2, _, hline⟩
              refine ⟨obj, line2, rfl, ?_⟩
              have heq2 : evnt = ev := by
                simpa using heq
              rw [← heq2, ← hline]
            · by_cases hs : env.sinkOk r.s3.bucket.name r.s3.object.key = true
              · rw [if_pos hs] at h4
                cases h4
              · rw [if_neg hs] at h4
                have h5 := List.mem_singleton.mp h4
                simp at h5
    · simp [handle_s3_event_record, hk, hreg] at hmem
  · simp [handle_s3_event_record, hk] at hmem

end AwsS3
namespace AwsS3

/-- Claim C9: the field map of every forwarded record carries exactly one
`bucket`, one `object` and one `region` entry; those hold the bucket name,
key and region of the notification whenever the object metadata does not itself use
those keys; every metadata pair is present (metadata is inserted after the
provenance fields, so a metadata entry under an identical key overwrites the
earlier value); and every event forwarded to the sink by record handling is
such an enrichment of some line. -/
theorem claim_C9_enrichment (r : S3EventRecord) (mdo : Option (List (String × String)))
    (line : Bytes) :
    (countKey (enrich r mdo line) "bucket" = 1 ∧
     countKey (enrich r mdo line) "object" = 1 ∧
     countKey (enrich r mdo line) "region" = 1) ∧
    ("bucket" ∉ (mdo.getD []).map Prod.fst →
      lookupField (enrich r mdo line) "bucket" = some r.s3.bucket.name) ∧
    ("object" ∉ (mdo.getD []).map Prod.fst →
      lookupField (enrich r mdo line) "object" = some r.s3.object.key) ∧
    ("region" ∉ (mdo.getD []).map Prod.fst →
      lookupField (enrich r mdo line) "region" = some r.aws_region) ∧
    (∀ md, mdo = some md → (md.map Prod.fst).Nodup →
      ∀ p ∈ md, lookupField (enrich r mdo line) p.1 = some p.2) ∧
    (∀ (ing : SqsIngestor) (env : Env) (ev : LogEvent),
      Effect.forward ev ∈ (handle_s3_event_record ing env r).2 →
      ∃ obj line2, env.getObject r.s3.bucket.name r.s3.object.key = Except.ok obj ∧
        ev = enrich r obj.metadata line2) := by
  have hb3 : countKey (insertField (insertField (insertField [("message", line)]
      "bucket" r.s3.bucket.name) "object" r.s3.object.key) "region" r.aws_region)
      "bucket" = 1 := by
    rw [countKey_insert_ne _ _ _ _ (by decide), countKey_insert_ne _ _ _ _ (by decide),
      countKey_insert_self]
  have ho3 : countKey (insertField (insertField (insertField [("message", line)]
      "bucket" r.s3.bucket.name) "object" r.s3.object.key) "region" r.aws_region)
      "object" = 1 := by
    rw [countKey_insert_ne _ _ _ _ (by decide), countKey_insert_self]
  have hr3 : countKey (insertField (insertField (insertField [("message", line)]
      "bucket" r.s3.bucket.name) "object" r.s3.object.key) "region" r.aws_region)
      "region" = 1 := countKey_insert_self _ _ _
  have hbl : lookupField (insertField (insertField (insertField [("message", line)]
      "bucket" r.s3.bucket.name) "object" r.s3.object.key) "region" r.aws_region)
      "bucket" = some r.s3.bucket.name := by
    rw [lookupField_insert_ne _ _ _ _ (by decide), lookupField_insert_ne _ _ _ _ (by decide),
      lookupField_insert_self]
  have hol : lookupField (insertField (insertField (insertField [("message", line)]
      "bucket" r.s3.bucket.name) "object" r.s3.object.key) "region" r.aws_region)
      "object" = some r.s3.object.key := by
    rw [lookupField_insert_ne _ _ _ _ (by decide), lookupField_insert_self]
  have hrl : lookupField (insertField (insertField (insertField [("message", line)]
      "bucket" r.s3.bucket.name) "object" r.s3.object.key) "region" r.aws_region)
      "region" = some r.aws_region := lookupField_insert_self _ _ _
  cases mdo with
  | none =>
    refine ⟨⟨hb3, ho3, hr3⟩, fun _ => hbl, fun _ => hol, fun _ => hrl, ?_, ?_⟩
    · intro md hmd
      cases hmd
    · intro ing env ev hmem
      exact forward_effect_is_enrichment r ing env ev hmem
  | some md =>
    refine ⟨⟨countKey_insertAll md _ _ hb3, countKey_insertAll md _ _ ho3,
      countKey_insertAll md _ _ hr3⟩, ?_, ?_, ?_, ?_, ?_⟩
    · intro hnot
      show lookupField (insertAll md _) "bucket" = some r.s3.bucket.name
      rw [lookupField_insertAll_notMem md _ _ hnot, hbl]
    · intro hnot
      show lookupField (insertAll md _) "object" = some r.s3.object.key
      rw [lookupField_insertAll_notMem md _ _ hnot, hol]
    · intro hnot
      show lookupField (insertAll md _) "region" = some r.aws_region
      rw [lookupField_insertAll_notMem md _ _ hnot, hrl]
    · intro md2 hmd2 hnd p hp
      cases hmd2
      exact lookupField_insertAll_mem md _ hnd p hp
    · intro ing env ev hmem
      exact forward_effect_is_enrichment r ing env ev hmem

end AwsS3

namespace AwsS3

/-- Claim C9, witness: the theorem applied to the fixture record with
metadata, including a metadata key that overwrites `bucket`. -/
theorem claim_C9_witness :
    countKey (enrich exRec (some [("team", "a"), ("bucket", "override")]) "line")
      "bucket" = 1 ∧
    lookupField (enrich exRec (some [("team", "a")]) "line") "bucket" = some "b" ∧
    lookupField (enrich exRec (some [("team", "a"), ("bucket", "override")]) "line")
      "bucket" = some "override" := by
  refine ⟨(claim_C9_enrichment exRec (some [("team", "a"), ("bucket", "override")])
    "line").1.1, ?_, ?_⟩
  · have h := (claim_C9_enrichment exRec (some [("team", "a")]) "line").2.1 (by decide)
    exact h.trans (by decide)
  · exact (claim_C9_enrichment exRec (some [("team", "a"), ("bucket", "override")])
      "line").2.2.2.2.1 [("team", "a"), ("bucket", "override")] rfl (by decide)
      ("bucket", "override") (by decide)

end AwsS3
